import Mathlib

/-!
Verification development for the "into-the-repo" repository analysis platform.

The frontend TypeScript sources are embedded shallowly: pure functions become
Lean functions over `ℚ`/`String`/`List`, and the stateful handlers become
explicit state-passing functions.  Components of the analysis engine that are
documented in the specification but whose implementation is not part of the
source tree (cache store, task orchestrator, progress channel, complexity
scorer) are modelled from the specification text; each such definition says so
in its doc comment.
-/

/- ===================================================================
   Complexity colour utilities
   Source: frontend/src/lib/complexityColors.ts
   =================================================================== -/

/-- Source `getComplexityLevel` (complexityColors.ts lines 13-18).
The TS input `number | undefined` is modelled as `Option ℚ`; the returned
level is the string union `'low' | 'medium' | 'high'`. -/
def getComplexityLevel (complexity : Option ℚ) : String :=
  match complexity with
  | none => "medium"
  | some x => if x < 5 then "low" else if x ≤ 10 then "medium" else "high"

/-- Source `getComplexityColor` (complexityColors.ts lines 26-39), a switch on
the level with a default branch returning gray. -/
def getComplexityColor (complexity : Option ℚ) : String :=
  let level := getComplexityLevel complexity
  if level = "low" then "#10b981"
  else if level = "medium" then "#f59e0b"
  else if level = "high" then "#ef4444"
  else "#6b7280"

/-- Source `getComplexityBgColor` (complexityColors.ts lines 47-60). -/
def getComplexityBgColor (complexity : Option ℚ) : String :=
  let level := getComplexityLevel complexity
  if level = "low" then "#ecfdf5"
  else if level = "medium" then "#fffbeb"
  else if level = "high" then "#fef2f2"
  else "#f3f4f6"

/-- Source `getComplexityBorderColor` (complexityColors.ts lines 68-81). -/
def getComplexityBorderColor (complexity : Option ℚ) : String :=
  let level := getComplexityLevel complexity
  if level = "low" then "#d1fae5"
  else if level = "medium" then "#fef3c7"
  else if level = "high" then "#fecaca"
  else "#e5e7eb"

/-- Source `getComplexityTextColor` (complexityColors.ts lines 89-102). -/
def getComplexityTextColor (complexity : Option ℚ) : String :=
  let level := getComplexityLevel complexity
  if level = "low" then "#047857"
  else if level = "medium" then "#b45309"
  else if level = "high" then "#991b1b"
  else "#374151"

/- ===================================================================
   Graph layout
   Source: components/Graph/Layout.tsx (two versions are present in the
   repository: a plain one and a complexity-styled one).
   =================================================================== -/

/-- Payload of a flow node (`data` in the TS `Node`): the rendered label plus
the optional complexity score read by the styled layout. -/
structure NodeData where
  label : String
  complexity : Option ℚ
deriving DecidableEq

/-- A react-flow node as manipulated by `getLayoutedGraph`. -/
structure FlowNode where
  id : String
  data : NodeData
  position : ℚ × ℚ
  targetPosition : String
  sourcePosition : String
  style : List (String × String)
deriving DecidableEq

/-- A react-flow edge; `getLayoutedGraph` never touches its fields. -/
structure FlowEdge where
  id : String
  source : String
  target : String
  animated : Bool
deriving DecidableEq

def nodeWidth : ℚ := 180

def nodeHeight : ℚ := 60

/-- Source `getLayoutedGraph`, plain variant (Layout.tsx lines 107-138).
The dagre layout engine is external; its output is abstracted as the
function `layout` from a node id to the dagre-computed centre position. -/
def getLayoutedGraph (layout : String → ℚ × ℚ) (direction : String)
    (nodes : List FlowNode) (edges : List FlowEdge) :
    List FlowNode × List FlowEdge :=
  let layoutedNodes := nodes.map fun node =>
    let pos := layout node.id
    { node with
        position := (pos.1 - nodeWidth / 2, pos.2 - nodeHeight / 2)
        targetPosition := if direction = "LR" then "left" else "top"
        sourcePosition := if direction = "LR" then "right" else "bottom" }
  (layoutedNodes, edges)

/-- Style object built by the complexity-styled variant (Layout.tsx lines
83-92); the spread of `node.style` followed by the new keys is modelled as
appending the new entries after the old ones. -/
def complexityStyle (node : FlowNode) : List (String × String) :=
  node.style ++
    [("border", "2px solid " ++ getComplexityBorderColor node.data.complexity),
     ("backgroundColor", getComplexityBgColor node.data.complexity),
     ("borderRadius", "8px"),
     ("padding", "8px"),
     ("fontSize", "12px"),
     ("fontWeight", "500"),
     ("boxShadow", "0 2px 8px " ++ getComplexityBorderColor node.data.complexity ++ "40")]

/-- Source `getLayoutedGraph`, complexity-styled variant (Layout.tsx lines
51-97). -/
def getLayoutedGraphStyled (layout : String → ℚ × ℚ) (direction : String)
    (nodes : List FlowNode) (edges : List FlowEdge) :
    List FlowNode × List FlowEdge :=
  let layoutedNodes := nodes.map fun node =>
    let pos := layout node.id
    { node with
        position := (pos.1 - nodeWidth / 2, pos.2 - nodeHeight / 2)
        targetPosition := if direction = "LR" then "left" else "top"
        sourcePosition := if direction = "LR" then "right" else "bottom"
        style := complexityStyle node }
  (layoutedNodes, edges)

/- ===================================================================
   Theorems for claims C8 and C9
   =================================================================== -/

/-- Claim C8: for every input (any number, or undefined/null),
`getComplexityLevel` returns exactly one of `low` (score < 5), `medium`
(5 ≤ score ≤ 10, and also for undefined/null input) or `high` (score > 10);
consequently the default switch branch of every colour-mapping function is
unreachable and each of them totally maps every input to one of its three
level colours. -/
theorem complexityLevel_total_and_default_unreachable (c : Option ℚ) :
    (getComplexityLevel c = "low" ∨ getComplexityLevel c = "medium" ∨
      getComplexityLevel c = "high") ∧
    (getComplexityLevel c = "low" ↔ ∃ x, c = some x ∧ x < 5) ∧
    (getComplexityLevel c = "high" ↔ ∃ x, c = some x ∧ 10 < x) ∧
    (getComplexityLevel c = "medium" ↔
      c = none ∨ ∃ x, c = some x ∧ 5 ≤ x ∧ x ≤ 10) ∧
    getComplexityColor c ≠ "#6b7280" ∧
    getComplexityColor c ∈ ["#10b981", "#f59e0b", "#ef4444"] ∧
    getComplexityBgColor c ≠ "#f3f4f6" ∧
    getComplexityBgColor c ∈ ["#ecfdf5", "#fffbeb", "#fef2f2"] ∧
    getComplexityBorderColor c ≠ "#e5e7eb" ∧
    getComplexityBorderColor c ∈ ["#d1fae5", "#fef3c7", "#fecaca"] ∧
    getComplexityTextColor c ≠ "#374151" ∧
    getComplexityTextColor c ∈ ["#047857", "#b45309", "#991b1b"] := by
  rcases c with _ | x
  · refine ⟨by simp [getComplexityLevel], ?_, ?_, ?_, ?_⟩ <;>
      simp [getComplexityLevel, getComplexityColor, getComplexityBgColor,
        getComplexityBorderColor, getComplexityTextColor]
  · by_cases h5 : x < 5
    · refine ⟨?_, ?_, ?_, ?_, ?_⟩ <;>
        simp [getComplexityLevel, getComplexityColor, getComplexityBgColor,
          getComplexityBorderColor, getComplexityTextColor, h5] <;>
        first
        | linarith
        | (intro y hy; simp_all; linarith)
        | (constructor <;> intro h <;> simp_all <;> linarith)
        | simp_all
    · by_cases h10 : x ≤ 10
      · refine ⟨?_, ?_, ?_, ?_, ?_⟩ <;>
          simp [getComplexityLevel, getComplexityColor, getComplexityBgColor,
            getComplexityBorderColor, getComplexityTextColor, h5, h10] <;>
          first
          | linarith
          | (intro y hy; simp_all; linarith)
          | (constructor <;> intro h <;> simp_all <;> linarith)
          | simp_all
      · refine ⟨?_, ?_, ?_, ?_, ?_⟩ <;>
          simp [getComplexityLevel, getComplexityColor, getComplexityBgColor,
            getComplexityBorderColor, getComplexityTextColor, h5, h10] <;>
          first
          | linarith
          | (intro y hy; simp_all; linarith)
          | (constructor <;> intro h <;> simp_all <;> linarith)
          | simp_all

/-- Claim C9: both variants of `getLayoutedGraph` return the edge list
unchanged (same edges, same order) and a node list of the same length, in the
same order, in which every node keeps its `id` and `data`; the plain variant
additionally keeps every node's `style`. -/
theorem getLayoutedGraph_preserves_ids_data_edges
    (layout : String → ℚ × ℚ) (direction : String)
    (nodes : List FlowNode) (edges : List FlowEdge) :
    (getLayoutedGraph layout direction nodes edges).2 = edges ∧
    (getLayoutedGraph layout direction nodes edges).1.length = nodes.length ∧
    (getLayoutedGraph layout direction nodes edges).1.map FlowNode.id =
      nodes.map FlowNode.id ∧
    (getLayoutedGraph layout direction nodes edges).1.map FlowNode.data =
      nodes.map FlowNode.data ∧
    (getLayoutedGraph layout direction nodes edges).1.map FlowNode.style =
      nodes.map FlowNode.style ∧
    (getLayoutedGraphStyled layout direction nodes edges).2 = edges ∧
    (getLayoutedGraphStyled layout direction nodes edges).1.length =
      nodes.length ∧
    (getLayoutedGraphStyled layout direction nodes edges).1.map FlowNode.id =
      nodes.map FlowNode.id ∧
    (getLayoutedGraphStyled layout direction nodes edges).1.map FlowNode.data =
      nodes.map FlowNode.data := by
  refine ⟨rfl, ?_, ?_, ?_, ?_, rfl, ?_, ?_, ?_⟩ <;>
    simp [getLayoutedGraph, getLayoutedGraphStyled, List.map_map, Function.comp]

/- ===================================================================
   Graph node-id parsing
   Source: components/Graph/DependencyGraph.tsx (`findMatchingDetail`)
   and components/Graph/ArchitectureGraph.tsx (`findMatchingFile`).
   JavaScript strings are modelled as their lists of characters.
   =================================================================== -/

/-- A JavaScript string, modelled as its list of characters. -/
abbrev JStr := List Char

/-- JavaScript `String.prototype.includes`: does `sep` occur as a contiguous
substring of the list? -/
def containsSeq (sep : JStr) : JStr → Bool
  | [] => sep.isPrefixOf []
  | c :: rest => sep.isPrefixOf (c :: rest) || containsSeq sep rest

/-- Worker for JavaScript `String.prototype.split`: scans left to right,
emitting the accumulated characters each time `sep` matches. -/
def splitGo (sep : JStr) (l : JStr) (acc : JStr) : List JStr :=
  match l with
  | [] => [acc.reverse]
  | c :: rest =>
    if h : sep ≠ [] ∧ sep.isPrefixOf (c :: rest) then
      acc.reverse :: splitGo sep ((c :: rest).drop sep.length) []
    else
      splitGo sep rest (c :: acc)
termination_by l.length
decreasing_by
  · cases sep with
    | nil => exact absurd rfl h.1
    | cons s ss => simp [List.length_drop]; omega
  · simp

/-- JavaScript `s.split(sep)` for a non-empty separator. -/
def jsSplit (l sep : JStr) : List JStr :=
  splitGo sep l []

/-- Separator string literal `"::function::"` from DependencyGraph.tsx. -/
def sepFunction : JStr :=
  [':', ':', 'f', 'u', 'n', 'c', 't', 'i', 'o', 'n', ':', ':']

/-- Separator string literal `"::class::"` from DependencyGraph.tsx. -/
def sepClass : JStr :=
  [':', ':', 'c', 'l', 'a', 's', 's', ':', ':']

/-- Separator string literal `"::method::"` from DependencyGraph.tsx. -/
def sepMethod : JStr :=
  [':', ':', 'm', 'e', 't', 'h', 'o', 'd', ':', ':']

/-- One function of an AST file record (type `FunctionInfo` of the frontend;
only the fields read by the graph components are carried). -/
structure FunctionInfo where
  name : JStr
  startLine : Nat
  complexity : Nat
deriving DecidableEq

/-- One class of an AST file record (type `ClassInfo` of the frontend). -/
structure ClassInfo where
  name : JStr
  startLine : Nat
  methods : List JStr
  complexity : Nat
deriving DecidableEq

/-- The AST record of a single file (type `ASTFileData` of the frontend). -/
structure ASTFileData where
  language : JStr
  functions : List FunctionInfo
  classes : List ClassInfo
  imports : List JStr
deriving DecidableEq

/-- Result of `findMatchingDetail`: the TS union
`ASTFileData | FunctionInfo | ClassInfo | {method, class}`. -/
inductive NodeDetail where
  | fileDetail : ASTFileData → NodeDetail
  | functionDetail : FunctionInfo → NodeDetail
  | classDetail : ClassInfo → NodeDetail
  | methodDetail : JStr → ClassInfo → NodeDetail
deriving DecidableEq

/-- Source `findMatchingDetail` (DependencyGraph.tsx lines 53-107): parses a
per-file call-graph node id and looks up the designated entity in the AST
record; `none` models the TS `null`. -/
def findMatchingDetail (nodeId : JStr) (ast : ASTFileData) : Option NodeDetail :=
  if containsSeq sepFunction nodeId then
    let functionName := (jsSplit nodeId sepFunction).getD 1 []
    (ast.functions.find? fun fn => fn.name == functionName).map .functionDetail
  else if containsSeq sepClass nodeId then
    let classPart := (jsSplit nodeId sepClass).getD 1 []
    if containsSeq sepMethod classPart then
      let className := (jsSplit classPart sepMethod).getD 0 []
      let methodName := (jsSplit classPart sepMethod).getD 1 []
      match ast.classes.find? fun cls => cls.name == className with
      | some cls =>
        if methodName ∈ cls.methods then some (.methodDetail methodName cls)
        else none
      | none => none
    else
      (ast.classes.find? fun cls => cls.name == classPart).map .classDetail
  else
    some (.fileDetail ast)

/-- The regex replacement `filePath.replace(/\.[^/.]+$/, '')` used by
`findMatchingFile` (ArchitectureGraph.tsx line 320): drop a final extension,
a dot followed by one or more characters none of which is a dot or slash. -/
def stripExt (p : JStr) : JStr :=
  let rev := p.reverse
  let ext := rev.takeWhile fun c => c ≠ '.' && c ≠ '/'
  match rev.dropWhile (fun c => c ≠ '.' && c ≠ '/') with
  | '.' :: rest => if ext.isEmpty then p else rest.reverse
  | _ => p

/-- Source `findMatchingFile` (ArchitectureGraph.tsx lines 318-324): finds the
first AST entry whose path with its final extension removed equals the
dependency-graph node id.  `Object.entries(ast)` is modelled as the
association list of the AST map. -/
def findMatchingFile (nodeId : JStr) (ast : List (JStr × ASTFileData)) :
    Option ASTFileData :=
  (ast.find? fun e => stripExt e.1 == nodeId).map (·.2)

/- ===================================================================
   Lemmas about substring search and splitting
   =================================================================== -/

/-- Boolean prefix test agrees with the prefix relation. -/
theorem prefixOf_eq_true_iff {s l : JStr} : s.isPrefixOf l = true ↔ s <+: l :=
  List.isPrefixOf_iff_prefix

/-- Unfolding lemma for `List.isPrefixOf` on two cons cells. -/
theorem prefixOf_cons_cons (a b : Char) (as bs : JStr) :
    (a :: as).isPrefixOf (b :: bs) = (a == b && as.isPrefixOf bs) := rfl

/-- A list containing a colon is never a prefix of a colon-free list. -/
theorem prefixOf_colon_free {s l : JStr} (hs : ':' ∈ s) (hl : ':' ∉ l) :
    s.isPrefixOf l = false := by
  cases hip : s.isPrefixOf l with
  | false => rfl
  | true => exact absurd ((prefixOf_eq_true_iff.mp hip).subset hs) hl

/-- Two colon-free segments followed by a colon must agree for the prefix
test to succeed: if they differ, the test fails. -/
theorem prefixOf_seg_ne {s C u v : JStr} (hs : ':' ∉ s) (hC : ':' ∉ C)
    (hne : s ≠ C) :
    (s ++ ':' :: u).isPrefixOf (C ++ ':' :: v) = false := by
  induction s generalizing C with
  | nil =>
    cases C with
    | nil => exact absurd rfl hne
    | cons c C' =>
      have hc : (':' : Char) ≠ c := fun h => hC (h ▸ List.mem_cons_self c C')
      simp [prefixOf_cons_cons, hc]
  | cons a s' ih =>
    cases C with
    | nil =>
      have ha : a ≠ ':' := fun h => hs (h ▸ List.mem_cons_self a s')
      simp [prefixOf_cons_cons, ha]
    | cons c C' =>
      by_cases hac : a = c
      · subst hac
        have hs' : ':' ∉ s' := fun h => hs (List.mem_cons_of_mem _ h)
        have hC' : ':' ∉ C' := fun h => hC (List.mem_cons_of_mem _ h)
        have hne' : s' ≠ C' := fun h => hne (h ▸ rfl)
        simp [prefixOf_cons_cons, ih hs' hC' hne']
      · simp [prefixOf_cons_cons, hac]

/-- Unfolding lemma for `containsSeq` on a cons cell. -/
theorem containsSeq_cons (sep : JStr) (c : Char) (l : JStr) :
    containsSeq sep (c :: l) = (sep.isPrefixOf (c :: l) || containsSeq sep l) :=
  rfl

/-- A separator starting with a colon never occurs in a colon-free list. -/
theorem containsSeq_colon_free {t l : JStr} (hl : ':' ∉ l) :
    containsSeq (':' :: t) l = false := by
  induction l with
  | nil => rfl
  | cons c cs ih =>
    have hc : (':' : Char) ≠ c := fun h => hl (h ▸ List.mem_cons_self c cs)
    have hcs : ':' ∉ cs := fun h => hl (List.mem_cons_of_mem _ h)
    simp [containsSeq_cons, prefixOf_cons_cons, hc, ih hcs]

/-- Scanning for a colon-leading separator skips over a colon-free region. -/
theorem containsSeq_append_colon_free {t f : JStr} (r : JStr) (hf : ':' ∉ f) :
    containsSeq (':' :: t) (f ++ r) = containsSeq (':' :: t) r := by
  induction f with
  | nil => rfl
  | cons c cs ih =>
    have hc : (':' : Char) ≠ c := fun h => hf (h ▸ List.mem_cons_self c cs)
    have hcs : ':' ∉ cs := fun h => hf (List.mem_cons_of_mem _ h)
    simp [containsSeq_cons, prefixOf_cons_cons, hc, ih hcs]

/-- A separator does occur in any list that spells it out between two
arbitrary colon-free flanks. -/
theorem containsSeq_append_sep {t : JStr} (f n : JStr) (hf : ':' ∉ f) :
    containsSeq (':' :: t) (f ++ (':' :: t) ++ n) = true := by
  rw [List.append_assoc, containsSeq_append_colon_free _ hf]
  have : ((':' :: t) ++ n) = ':' :: (t ++ n) := rfl
  rw [this, containsSeq_cons]
  have hp : (':' :: t).isPrefixOf (':' :: (t ++ n)) = true :=
    prefixOf_eq_true_iff.mpr ⟨n, rfl⟩
  simp [hp]

/-- Base equation of `splitGo`. -/
theorem splitGo_nil (sep acc : JStr) : splitGo sep [] acc = [acc.reverse] := by
  rw [splitGo]

/-- Step equation of `splitGo` when the separator does not match here. -/
theorem splitGo_cons_skip {sep : JStr} {c : Char} {rest : JStr}
    (hp : sep.isPrefixOf (c :: rest) = false) (acc : JStr) :
    splitGo sep (c :: rest) acc = splitGo sep rest (c :: acc) := by
  rw [splitGo]
  exact dif_neg (by simp [hp])

/-- `splitGo` skips over a colon-free region, accumulating it. -/
theorem splitGo_append_colon_free {t : JStr} (f : JStr) (hf : ':' ∉ f)
    (r acc : JStr) :
    splitGo (':' :: t) (f ++ r) acc = splitGo (':' :: t) r (f.reverse ++ acc) := by
  induction f generalizing acc with
  | nil => simp
  | cons c cs ih =>
    have hc : (':' : Char) ≠ c := fun h => hf (h ▸ List.mem_cons_self c cs)
    have hcs : ':' ∉ cs := fun h => hf (List.mem_cons_of_mem _ h)
    have hp : (':' :: t).isPrefixOf (c :: (cs ++ r)) = false := by
      simp [prefixOf_cons_cons, hc]
    rw [List.cons_append, splitGo_cons_skip hp, ih hcs]
    simp

/-- `splitGo` emits the accumulator when the input starts with the
separator, and continues after it. -/
theorem splitGo_hit {t : JStr} (n acc : JStr) :
    splitGo (':' :: t) ((':' :: t) ++ n) acc =
      acc.reverse :: splitGo (':' :: t) n [] := by
  have hp : (':' :: t).isPrefixOf (':' :: (t ++ n)) = true :=
    prefixOf_eq_true_iff.mpr ⟨n, rfl⟩
  have heq : ((':' :: t) ++ n) = ':' :: (t ++ n) := rfl
  rw [heq, splitGo, dif_pos ⟨by simp, hp⟩]
  congr 1
  simp

/-- If the separator occurs nowhere, `splitGo` returns a single piece. -/
theorem splitGo_no_occur {sep l : JStr} (h : containsSeq sep l = false)
    (acc : JStr) :
    splitGo sep l acc = [acc.reverse ++ l] := by
  induction l generalizing acc with
  | nil => simp [splitGo_nil]
  | cons c rest ih =>
    rw [containsSeq_cons, Bool.or_eq_false_iff] at h
    rw [splitGo_cons_skip h.1, ih h.2]
    simp

/-- JavaScript split of `f ++ sep ++ rest` where the colon-leading separator
occurs exactly once: the result is the two flanks. -/
theorem jsSplit_clean {t : JStr} (f rest : JStr) (hf : ':' ∉ f)
    (hrest : containsSeq (':' :: t) rest = false) :
    jsSplit (f ++ (':' :: t) ++ rest) (':' :: t) = [f, rest] := by
  unfold jsSplit
  rw [List.append_assoc, splitGo_append_colon_free f hf, splitGo_hit,
    splitGo_no_occur hrest]
  simp

/- ===================================================================
   Occurrence analysis of the three id separators
   =================================================================== -/

/-- `"::function::"` does not occur in `"::class::" ++ C` when the class
name `C` is colon-free. -/
theorem function_sep_not_in_class_id {C : JStr} (hC : ':' ∉ C) :
    containsSeq sepFunction (sepClass ++ C) = false := by
  have hA : List.isPrefixOf
      (['f', 'u', 'n', 'c', 't', 'i', 'o', 'n', ':', ':'] : JStr) C = false :=
    prefixOf_colon_free (by decide) hC
  have hB : List.isPrefixOf
      ([':', 'f', 'u', 'n', 'c', 't', 'i', 'o', 'n', ':', ':'] : JStr) C = false :=
    prefixOf_colon_free (by decide) hC
  have hT : containsSeq
      ([':', ':', 'f', 'u', 'n', 'c', 't', 'i', 'o', 'n', ':', ':'] : JStr) C =
        false :=
    containsSeq_colon_free hC
  simp [sepFunction, sepClass, containsSeq, List.isPrefixOf, hA, hB, hT]

/-- `"::function::"` does not occur in `"::method::" ++ M` when the method
name `M` is colon-free. -/
theorem function_sep_not_in_method_tail {M : JStr} (hM : ':' ∉ M) :
    containsSeq sepFunction (sepMethod ++ M) = false := by
  have hA : List.isPrefixOf
      (['f', 'u', 'n', 'c', 't', 'i', 'o', 'n', ':', ':'] : JStr) M = false :=
    prefixOf_colon_free (by decide) hM
  have hB : List.isPrefixOf
      ([':', 'f', 'u', 'n', 'c', 't', 'i', 'o', 'n', ':', ':'] : JStr) M = false :=
    prefixOf_colon_free (by decide) hM
  have hT : containsSeq
      ([':', ':', 'f', 'u', 'n', 'c', 't', 'i', 'o', 'n', ':', ':'] : JStr) M =
        false :=
    containsSeq_colon_free hM
  simp [sepFunction, sepMethod, containsSeq, List.isPrefixOf, hA, hB, hT]

/-- `"::class::"` does not occur in `"::method::" ++ M` when the method
name `M` is colon-free. -/
theorem class_sep_not_in_method_tail {M : JStr} (hM : ':' ∉ M) :
    containsSeq sepClass (sepMethod ++ M) = false := by
  have hA : List.isPrefixOf
      (['c', 'l', 'a', 's', 's', ':', ':'] : JStr) M = false :=
    prefixOf_colon_free (by decide) hM
  have hB : List.isPrefixOf
      ([':', 'c', 'l', 'a', 's', 's', ':', ':'] : JStr) M = false :=
    prefixOf_colon_free (by decide) hM
  have hT : containsSeq
      ([':', ':', 'c', 'l', 'a', 's', 's', ':', ':'] : JStr) M = false :=
    containsSeq_colon_free hM
  simp [sepClass, sepMethod, containsSeq, List.isPrefixOf, hA, hB, hT]

/-- `"::function::"` does not occur in the tail `C ++ "::method::" ++ M` of
a method id, colon-free names assumed. -/
theorem function_sep_not_in_method_part {C M : JStr} (hC : ':' ∉ C)
    (hM : ':' ∉ M) :
    containsSeq sepFunction (C ++ sepMethod ++ M) = false := by
  have h : containsSeq (':' :: sepFunction.tail) (C ++ (sepMethod ++ M)) =
      containsSeq (':' :: sepFunction.tail) (sepMethod ++ M) :=
    containsSeq_append_colon_free _ hC
  rw [List.append_assoc]
  exact h.trans (function_sep_not_in_method_tail hM)

/-- `"::class::"` does not occur in the tail `C ++ "::method::" ++ M` of a
method id, colon-free names assumed. -/
theorem class_sep_not_in_method_part {C M : JStr} (hC : ':' ∉ C)
    (hM : ':' ∉ M) :
    containsSeq sepClass (C ++ sepMethod ++ M) = false := by
  have h : containsSeq (':' :: sepClass.tail) (C ++ (sepMethod ++ M)) =
      containsSeq (':' :: sepClass.tail) (sepMethod ++ M) :=
    containsSeq_append_colon_free _ hC
  rw [List.append_assoc]
  exact h.trans (class_sep_not_in_method_tail hM)

/-- The suffix `":function::"` of the function separator cannot begin at the
final colon of `"::class::"` in a method id. -/
theorem function_sep_tail_no_match {C M : JStr} (w : JStr) (hC : ':' ∉ C) :
    List.isPrefixOf (':' :: 'f' :: w) (C ++ (sepMethod ++ M)) = false := by
  cases C with
  | nil => simp [sepMethod, prefixOf_cons_cons]
  | cons c C' =>
    have hc : (':' : Char) ≠ c := fun h => hC (h ▸ List.mem_cons_self c C')
    simp [prefixOf_cons_cons, hc]

/-- `"::function::"` does not occur in a full method id tail
`"::class::" ++ C ++ "::method::" ++ M` unless the class is literally named
`function`. -/
theorem function_sep_not_in_method_id {C M : JStr} (hC : ':' ∉ C)
    (hM : ':' ∉ M) (hCfn : C ≠ ['f', 'u', 'n', 'c', 't', 'i', 'o', 'n']) :
    containsSeq sepFunction (sepClass ++ (C ++ sepMethod ++ M)) = false := by
  have h7 : List.isPrefixOf
      (['f', 'u', 'n', 'c', 't', 'i', 'o', 'n', ':', ':'] : JStr)
      (C ++ (sepMethod ++ M)) = false := by
    have := prefixOf_seg_ne
      (s := ['f', 'u', 'n', 'c', 't', 'i', 'o', 'n'])
      (u := [':']) (C := C)
      (v := [':', 'm', 'e', 't', 'h', 'o', 'd', ':', ':'] ++ M)
      (by decide) hC (fun h => hCfn h.symm)
    simpa [sepMethod] using this
  have h8 : List.isPrefixOf
      ([':', 'f', 'u', 'n', 'c', 't', 'i', 'o', 'n', ':', ':'] : JStr)
      (C ++ (sepMethod ++ M)) = false :=
    function_sep_tail_no_match _ hC
  have hT : containsSeq
      ([':', ':', 'f', 'u', 'n', 'c', 't', 'i', 'o', 'n', ':', ':'] : JStr)
      (C ++ (sepMethod ++ M)) = false := by
    have := function_sep_not_in_method_part hC hM
    rwa [List.append_assoc, sepFunction] at this
  simp [sepFunction, sepClass, containsSeq, List.isPrefixOf, List.append_assoc,
    h7, h8, hT]

/- ===================================================================
   Branch behaviour of findMatchingDetail
   =================================================================== -/

/-- On a function id `f ++ "::function::" ++ N` with colon-free flanks,
`findMatchingDetail` looks up the function named `N`. -/
theorem findMatchingDetail_function_id (ast : ASTFileData) (f N : JStr)
    (hf : ':' ∉ f) (hN : ':' ∉ N) :
    findMatchingDetail (f ++ sepFunction ++ N) ast =
      (ast.functions.find? fun fn => fn.name == N).map
        NodeDetail.functionDetail := by
  have h1 : containsSeq sepFunction (f ++ sepFunction ++ N) = true :=
    containsSeq_append_sep f N hf
  have h2 : jsSplit (f ++ sepFunction ++ N) sepFunction = [f, N] :=
    jsSplit_clean f N hf (containsSeq_colon_free hN)
  simp only [List.append_assoc] at h1 h2
  simp [findMatchingDetail, h1, h2]

/-- On a class id `f ++ "::class::" ++ C` with colon-free flanks,
`findMatchingDetail` looks up the class named `C`. -/
theorem findMatchingDetail_class_id (ast : ASTFileData) (f C : JStr)
    (hf : ':' ∉ f) (hC : ':' ∉ C) :
    findMatchingDetail (f ++ sepClass ++ C) ast =
      (ast.classes.find? fun cls => cls.name == C).map
        NodeDetail.classDetail := by
  have h0 : containsSeq sepFunction (f ++ sepClass ++ C) = false := by
    rw [List.append_assoc]
    exact (containsSeq_append_colon_free _ hf).trans
      (function_sep_not_in_class_id hC)
  have h1 : containsSeq sepClass (f ++ sepClass ++ C) = true :=
    containsSeq_append_sep f C hf
  have h2 : jsSplit (f ++ sepClass ++ C) sepClass = [f, C] :=
    jsSplit_clean f C hf (containsSeq_colon_free hC)
  have h3 : containsSeq sepMethod C = false := containsSeq_colon_free hC
  simp only [List.append_assoc] at h0 h1 h2
  simp [findMatchingDetail, h0, h1, h2, h3]

/-- On a method id `f ++ "::class::" ++ C ++ "::method::" ++ M` with
colon-free names where `C` is not literally `function`, `findMatchingDetail`
looks up method `M` of the class named `C`. -/
theorem findMatchingDetail_method_id (ast : ASTFileData) (f C M : JStr)
    (hf : ':' ∉ f) (hC : ':' ∉ C) (hM : ':' ∉ M)
    (hCfn : C ≠ ['f', 'u', 'n', 'c', 't', 'i', 'o', 'n']) :
    findMatchingDetail (f ++ sepClass ++ (C ++ sepMethod ++ M)) ast =
      (match ast.classes.find? fun cls => cls.name == C with
        | some cls =>
          if M ∈ cls.methods then some (NodeDetail.methodDetail M cls)
          else none
        | none => none) := by
  have h0 : containsSeq sepFunction (f ++ sepClass ++ (C ++ sepMethod ++ M)) =
      false := by
    rw [List.append_assoc]
    exact (containsSeq_append_colon_free _ hf).trans
      (function_sep_not_in_method_id hC hM hCfn)
  have h1 : containsSeq sepClass (f ++ sepClass ++ (C ++ sepMethod ++ M)) =
      true := containsSeq_append_sep f _ hf
  have h2 : jsSplit (f ++ sepClass ++ (C ++ sepMethod ++ M)) sepClass =
      [f, C ++ sepMethod ++ M] :=
    jsSplit_clean f _ hf (class_sep_not_in_method_part hC hM)
  have h3 : containsSeq sepMethod (C ++ sepMethod ++ M) = true :=
    containsSeq_append_sep C M hC
  have h4 : jsSplit (C ++ sepMethod ++ M) sepMethod = [C, M] :=
    jsSplit_clean C M hC (containsSeq_colon_free hM)
  simp only [List.append_assoc] at h0 h1 h2 h3 h4
  simp [findMatchingDetail, h0, h1, h2, h3, h4]

/-- On an id containing neither separator, `findMatchingDetail` returns the
file record itself. -/
theorem findMatchingDetail_file_id (ast : ASTFileData) (fileId : JStr)
    (h1 : containsSeq sepFunction fileId = false)
    (h2 : containsSeq sepClass fileId = false) :
    findMatchingDetail fileId ast = some (NodeDetail.fileDetail ast) := by
  simp [findMatchingDetail, h1, h2]

/- ===================================================================
   Theorems for claims C6 and C5
   =================================================================== -/

/-- Claim C6 (amended): for ids whose file, function, class and method name
components are free of the colon character and whose class name is not the
literal word `function`, `findMatchingDetail` resolves `file::function::N`
to the function named `N`, `file::class::C` to the class named `C`,
`file::class::C::method::M` to method `M` of the class named `C`, an id
without the separators to the file record itself, and returns `none` exactly
when no entity of the designated name exists in the record. -/
theorem findMatchingDetail_resolves_node_ids (ast : ASTFileData)
    (f N C M fileId : JStr) (hf : ':' ∉ f) (hN : ':' ∉ N) (hC : ':' ∉ C)
    (hM : ':' ∉ M) (hCfn : C ≠ ['f', 'u', 'n', 'c', 't', 'i', 'o', 'n'])
    (hfile1 : containsSeq sepFunction fileId = false)
    (hfile2 : containsSeq sepClass fileId = false) :
    (findMatchingDetail (f ++ sepFunction ++ N) ast =
      (ast.functions.find? fun fn => fn.name == N).map
        NodeDetail.functionDetail) ∧
    (findMatchingDetail (f ++ sepFunction ++ N) ast = none ↔
      ∀ fn ∈ ast.functions, fn.name ≠ N) ∧
    (∀ d, findMatchingDetail (f ++ sepFunction ++ N) ast = some d →
      ∃ fn, d = NodeDetail.functionDetail fn ∧ fn ∈ ast.functions ∧
        fn.name = N) ∧
    (findMatchingDetail (f ++ sepClass ++ C) ast =
      (ast.classes.find? fun cls => cls.name == C).map
        NodeDetail.classDetail) ∧
    (findMatchingDetail (f ++ sepClass ++ C) ast = none ↔
      ∀ cls ∈ ast.classes, cls.name ≠ C) ∧
    (∀ d, findMatchingDetail (f ++ sepClass ++ C) ast = some d →
      ∃ cls, d = NodeDetail.classDetail cls ∧ cls ∈ ast.classes ∧
        cls.name = C) ∧
    ((∃ cls, findMatchingDetail (f ++ sepClass ++ (C ++ sepMethod ++ M)) ast =
        some (NodeDetail.methodDetail M cls) ∧ cls ∈ ast.classes ∧
        cls.name = C ∧ M ∈ cls.methods) ∨
      findMatchingDetail (f ++ sepClass ++ (C ++ sepMethod ++ M)) ast =
        none) ∧
    ((∀ cls ∈ ast.classes, cls.name ≠ C) →
      findMatchingDetail (f ++ sepClass ++ (C ++ sepMethod ++ M)) ast =
        none) ∧
    (findMatchingDetail fileId ast = some (NodeDetail.fileDetail ast)) := by
  have hfn := findMatchingDetail_function_id ast f N hf hN
  have hcl := findMatchingDetail_class_id ast f C hf hC
  have hmd := findMatchingDetail_method_id ast f C M hf hC hM hCfn
  refine ⟨hfn, ?_, ?_, hcl, ?_, ?_, ?_, ?_,
    findMatchingDetail_file_id ast fileId hfile1 hfile2⟩
  · rw [hfn]
    simp [List.find?_eq_none]
  · intro d hd
    rw [hfn] at hd
    rcases Option.map_eq_some'.mp hd with ⟨fn, hfind, rfl⟩
    exact ⟨fn, rfl, List.mem_of_find?_eq_some hfind,
      by simpa using List.find?_some hfind⟩
  · rw [hcl]
    simp [List.find?_eq_none]
  · intro d hd
    rw [hcl] at hd
    rcases Option.map_eq_some'.mp hd with ⟨cls, hfind, rfl⟩
    exact ⟨cls, rfl, List.mem_of_find?_eq_some hfind,
      by simpa using List.find?_some hfind⟩
  · rw [hmd]
    cases hfind : ast.classes.find? fun cls => cls.name == C with
    | none => exact Or.inr rfl
    | some cls =>
      by_cases hm : M ∈ cls.methods
      · exact Or.inl ⟨cls, by simp [hm], List.mem_of_find?_eq_some hfind,
          by simpa using List.find?_some hfind, hm⟩
      · simp [hm]
  · intro hnone
    rw [hmd]
    have : (ast.classes.find? fun cls => cls.name == C) = none := by
      rw [List.find?_eq_none]
      intro cls hcls
      simpa using hnone cls hcls
    simp [this]

/-- Concrete class record named `function` used to refute claim C6. -/
def cexClass : ClassInfo :=
  { name := ['f', 'u', 'n', 'c', 't', 'i', 'o', 'n']
    startLine := 1
    methods := [['r', 'u', 'n']]
    complexity := 1 }

/-- Concrete AST record used to refute claim C6. -/
def cexAst : ASTFileData :=
  { language := ['p', 'y'], functions := [], classes := [cexClass],
    imports := [] }

/-- The method id `file::class::function::method::run`. -/
def cexMethodId : JStr :=
  ['f', 'i', 'l', 'e'] ++ sepClass ++ ['f', 'u', 'n', 'c', 't', 'i', 'o', 'n']
    ++ sepMethod ++ ['r', 'u', 'n']

/-- Claim C6 as stated is false: the id `file::class::function::method::run`
designates method `run` of the class named `function`, which exists in the
record, yet `findMatchingDetail` returns `null` for it (the id accidentally
contains `"::function::"`, so the function branch fires first). -/
theorem findMatchingDetail_counterexample :
    findMatchingDetail cexMethodId cexAst = none ∧
    cexClass ∈ cexAst.classes ∧ (['r', 'u', 'n'] : JStr) ∈ cexClass.methods ∧
    cexMethodId =
      ['f', 'i', 'l', 'e'] ++ sepClass ++ cexClass.name ++ sepMethod ++
        ['r', 'u', 'n'] := by
  refine ⟨?_, by decide, by decide, by decide⟩
  have hcontains : containsSeq sepFunction cexMethodId = true := by decide
  simp only [findMatchingDetail, hcontains, if_true]
  have hsplit : jsSplit cexMethodId sepFunction =
      [['f', 'i', 'l', 'e', ':', ':', 'c', 'l', 'a', 's', 's'],
       ['m', 'e', 't', 'h', 'o', 'd', ':', ':', 'r', 'u', 'n']] := by
    simp [cexMethodId, sepClass, sepMethod, sepFunction, jsSplit, splitGo,
      List.isPrefixOf]
  simp [hsplit, cexAst]

/-- Claim C6 witness: the amended theorem applied at the id
`a::function::g` over a record containing a function named `g`. -/
theorem findMatchingDetail_resolves_node_ids_witness :
    findMatchingDetail (['a'] ++ sepFunction ++ ['g'])
      { language := [], functions := [⟨['g'], 3, 2⟩], classes := [],
        imports := [] } =
      some (NodeDetail.functionDetail ⟨['g'], 3, 2⟩) := by
  have h := (findMatchingDetail_resolves_node_ids
    { language := [], functions := [⟨['g'], 3, 2⟩], classes := [],
      imports := [] }
    ['a'] ['g'] ['b'] ['m'] ['x'] (by decide) (by decide) (by decide)
    (by decide) (by decide) (by decide) (by decide)).1
  rw [h]
  rfl

/-- Concrete AST record of a TypeScript file, used to refute claim C5. -/
def cexAstTs : ASTFileData :=
  { language := ['t', 's'], functions := [], classes := [], imports := [] }

/-- Concrete AST record of a JavaScript file, used to refute claim C5. -/
def cexAstJs : ASTFileData :=
  { language := ['j', 's'], functions := [], classes := [], imports := [] }

/-- Claim C5 as stated is false: the node-id mapping (path with its final
extension removed) is not collision-free within a snapshot.  The two
distinct files `a.ts` and `a.js` of the same snapshot yield the same node
id `a`, and the lookup for that id always answers with the first entry,
shadowing the second file. -/
theorem stripExt_collision_counterexample :
    stripExt ['a', '.', 't', 's'] = ['a'] ∧
    stripExt ['a', '.', 'j', 's'] = ['a'] ∧
    (['a', '.', 't', 's'] : JStr) ≠ ['a', '.', 'j', 's'] ∧
    cexAstTs ≠ cexAstJs ∧
    findMatchingFile ['a']
      [(['a', '.', 't', 's'], cexAstTs), (['a', '.', 'j', 's'], cexAstJs)] =
      some cexAstTs := by
  decide

/-- Claim C5 (amended): the dependency-graph node id of a file is its path
with the final extension removed, a function of the path alone — the same
path yields the same node id in separate calls regardless of the file's
content — and `findMatchingFile` answers a node-id query exactly with an
entry whose stripped path equals the queried id; but distinct files of one
snapshot may collide on the same node id (see the counterexample). -/
theorem findMatchingFile_id_scheme (ast : List (JStr × ASTFileData))
    (nodeId p : JStr) (d d' : ASTFileData) :
    (findMatchingFile nodeId ast = none ↔
      ∀ e ∈ ast, stripExt e.1 ≠ nodeId) ∧
    (∀ r, findMatchingFile nodeId ast = some r →
      ∃ q, (q, r) ∈ ast ∧ stripExt q = nodeId) ∧
    findMatchingFile (stripExt p) [(p, d)] = some d ∧
    findMatchingFile (stripExt p) [(p, d')] = some d' := by
  refine ⟨?_, ?_, ?_, ?_⟩
  · rw [findMatchingFile, Option.map_eq_none', List.find?_eq_none]
    constructor
    · intro h e he
      simpa using h e he
    · intro h e he
      simpa using h e he
  · intro r hr
    rcases Option.map_eq_some'.mp hr with ⟨e, hfind, hsnd⟩
    rcases e with ⟨q, v⟩
    cases hsnd
    exact ⟨q, List.mem_of_find?_eq_some hfind,
      by simpa using List.find?_some hfind⟩
  · simp [findMatchingFile]
  · simp [findMatchingFile]

/-- Claim C5 witness: the amended theorem applied at a concrete snapshot
containing the single file `a.ts`. -/
theorem findMatchingFile_id_scheme_witness :
    ∃ q, (q, cexAstTs) ∈ [((['a', '.', 't', 's'] : JStr), cexAstTs)] ∧
      stripExt q = ['a'] :=
  (findMatchingFile_id_scheme [(['a', '.', 't', 's'], cexAstTs)] ['a']
    ['a', '.', 't', 's'] cexAstTs cexAstTs).2.1 cexAstTs (by decide)

/- ===================================================================
   Complexity scoring (claim C3)
   =================================================================== -/

/-- Modelled from the spec: the AST extractor is not part of this source
tree; the shared "control-flow node" classification of section 4.3 is
modelled as a tree of control-flow constructs.  `chain k` is one chain of
`k` boolean short-circuit operator occurrences. -/
inductive CF where
  | skip : CF
  | seq : CF → CF → CF
  | branch : CF → CF
  | loop : CF → CF
  | chain : Nat → CF
  | handler : CF → CF
deriving DecidableEq

/-- Modelled from the spec: the number of complexity increments contributed
by a body — one per conditional branch, one per loop construct, one per
boolean short-circuit operator occurrence beyond the first in a chain, and
one per exception-handling clause. -/
def cfCount : CF → Nat
  | .skip => 0
  | .seq a b => cfCount a + cfCount b
  | .branch a => 1 + cfCount a
  | .loop a => 1 + cfCount a
  | .chain k => k - 1
  | .handler a => 1 + cfCount a

/-- Modelled from the spec: cyclomatic complexity of one function or method
body — start at 1, then add the control-flow increments. -/
def complexity (body : CF) : Nat := 1 + cfCount body

/-- Number of conditional branches in a body. -/
def countBranches : CF → Nat
  | .skip => 0
  | .seq a b => countBranches a + countBranches b
  | .branch a => 1 + countBranches a
  | .loop a => countBranches a
  | .chain _ => 0
  | .handler a => countBranches a

/-- Number of loop constructs in a body. -/
def countLoops : CF → Nat
  | .skip => 0
  | .seq a b => countLoops a + countLoops b
  | .branch a => countLoops a
  | .loop a => 1 + countLoops a
  | .chain _ => 0
  | .handler a => countLoops a

/-- Number of boolean short-circuit operator occurrences beyond the first
of each chain. -/
def countExtraOps : CF → Nat
  | .skip => 0
  | .seq a b => countExtraOps a + countExtraOps b
  | .branch a => countExtraOps a
  | .loop a => countExtraOps a
  | .chain k => k - 1
  | .handler a => countExtraOps a

/-- Number of exception-handling clauses in a body. -/
def countHandlers : CF → Nat
  | .skip => 0
  | .seq a b => countHandlers a + countHandlers b
  | .branch a => countHandlers a
  | .loop a => countHandlers a
  | .chain _ => 0
  | .handler a => 1 + countHandlers a

/-- A one-hole context over control-flow bodies, used to state that adding
a conditional branch anywhere in a function adds exactly one. -/
inductive CFCtx where
  | hole : CFCtx
  | seqL : CFCtx → CF → CFCtx
  | seqR : CF → CFCtx → CFCtx
  | branchC : CFCtx → CFCtx
  | loopC : CFCtx → CFCtx
  | handlerC : CFCtx → CFCtx

/-- Plug a body into a one-hole context. -/
def plugCF : CFCtx → CF → CF
  | .hole, b => b
  | .seqL c r, b => .seq (plugCF c b) r
  | .seqR l c, b => .seq l (plugCF c b)
  | .branchC c, b => .branch (plugCF c b)
  | .loopC c, b => .loop (plugCF c b)
  | .handlerC c, b => .handler (plugCF c b)

/-- The increment count decomposes into the four spec categories. -/
theorem cfCount_decomposition (body : CF) :
    cfCount body = countBranches body + countLoops body +
      countExtraOps body + countHandlers body := by
  induction body with
  | skip => rfl
  | seq a b iha ihb =>
    simp [cfCount, countBranches, countLoops, countExtraOps, countHandlers,
      iha, ihb]
    omega
  | branch a ih =>
    simp [cfCount, countBranches, countLoops, countExtraOps, countHandlers, ih]
    omega
  | loop a ih =>
    simp [cfCount, countBranches, countLoops, countExtraOps, countHandlers, ih]
    omega
  | chain k =>
    simp [cfCount, countBranches, countLoops, countExtraOps, countHandlers]
  | handler a ih =>
    simp [cfCount, countBranches, countLoops, countExtraOps, countHandlers, ih]
    omega

/-- Wrapping a sub-body in a conditional branch adds exactly one increment,
wherever the sub-body sits. -/
theorem cfCount_plug_branch (ctx : CFCtx) (sub : CF) :
    cfCount (plugCF ctx (CF.branch sub)) = cfCount (plugCF ctx sub) + 1 := by
  induction ctx with
  | hole => simp [plugCF, cfCount]; omega
  | seqL c r ih => simp [plugCF, cfCount, ih]; omega
  | seqR l c ih => simp [plugCF, cfCount, ih]; omega
  | branchC c ih => simp [plugCF, cfCount, ih]; omega
  | loopC c ih => simp [plugCF, cfCount, ih]; omega
  | handlerC c ih => simp [plugCF, cfCount, ih]; omega

/-- Claim C3: every function's or method's complexity score is a
non-negative integer equal to 1 plus one per conditional branch, one per
loop construct, one per boolean short-circuit operator occurrence beyond
the first in a chain, and one per exception-handling clause; consequently,
adding one conditional branch anywhere in a function, all else equal,
yields a score exactly one greater than before. -/
theorem complexity_scoring_rule (body : CF) (ctx : CFCtx) (sub : CF) :
    complexity body = 1 + countBranches body + countLoops body +
      countExtraOps body + countHandlers body ∧
    1 ≤ complexity body ∧
    complexity (plugCF ctx (CF.branch sub)) =
      complexity (plugCF ctx sub) + 1 := by
  refine ⟨?_, ?_, ?_⟩
  · rw [complexity, cfCount_decomposition]
    omega
  · rw [complexity]
    omega
  · rw [complexity, complexity, cfCount_plug_branch]
    omega

/- ===================================================================
   Cache store (claims C1 and C2)
   =================================================================== -/

/-- Modelled from the spec: the cache key tuple of section 3 — repository
identity, branch, and commit identifier. -/
structure CacheKey where
  repo : String
  branch : String
  commit : String
deriving DecidableEq

/-- Modelled from the spec: an `AnalysisResult` — resolved commit,
dependency graph, and the per-file AST map (section 3); immutable once
written to the cache store. -/
structure AnalysisResult where
  resolvedCommit : String
  depGraphNodes : List JStr
  depGraphEdges : List (JStr × JStr)
  astMap : List (JStr × ASTFileData)
deriving DecidableEq

/-- Message logged on a conflicting cache write (section 4.5: a programming
error to be logged, not silently overwritten). -/
def conflictMessage : String :=
  "cache write conflict: existing key holds different content"

/-- Modelled from the spec: the cache store of section 4.5 — keyed entries
plus the log of observable warnings. -/
structure CacheStore where
  entries : List (CacheKey × AnalysisResult)
  log : List String
deriving DecidableEq

/-- Modelled from the spec: `get(repository, branch, commit)` — keyed
lookup of a completed analysis result. -/
def CacheStore.get (s : CacheStore) (k : CacheKey) : Option AnalysisResult :=
  (s.entries.find? fun e => e.1 == k).map (·.2)

/-- Modelled from the spec: `put(repository, branch, commit, result)` —
idempotent for equal content; a write with different content for an
existing key is applied as an explicit last-write-wins decision and logged
as a warning (section 4.5). -/
def CacheStore.put (s : CacheStore) (k : CacheKey) (v : AnalysisResult) :
    CacheStore :=
  match s.get k with
  | none => { s with entries := s.entries ++ [(k, v)] }
  | some w =>
    if w = v then s
    else
      { entries := s.entries.map fun e => if e.1 = k then (k, v) else e
        log := s.log ++ [conflictMessage] }

/-- Modelled from the spec: the orchestrator's data flow on one request
(section 2) — probe the cache by (repo, branch, resolved commit); on hit
return the stored result, on miss run a fresh analysis and write it.  The
returned flag tells whether the probe was a hit. -/
def analyzeTask (fresh : AnalysisResult) (s : CacheStore)
    (repo branch commit : String) : AnalysisResult × CacheStore × Bool :=
  match s.get ⟨repo, branch, commit⟩ with
  | some v => (v, s, true)
  | none => (fresh, s.put ⟨repo, branch, commit⟩ fresh, false)

/-- Appending a fresh entry makes it findable when nothing matched before. -/
theorem find?_append_fresh (entries : List (CacheKey × AnalysisResult))
    (k : CacheKey) (v : AnalysisResult)
    (h : (entries.find? fun e => e.1 == k) = none) :
    ((entries ++ [(k, v)]).find? fun e => e.1 == k) = some (k, v) := by
  induction entries with
  | nil => simp
  | cons e es ih =>
    rw [List.find?_cons] at h
    rcases hpe : (e.1 == k) with _ | _
    · rw [hpe] at h
      simp only [List.cons_append, List.find?_cons, hpe]
      exact ih h
    · rw [hpe] at h
      simp at h

/-- Replacing the value at a key makes the new value findable when the key
was present. -/
theorem find?_map_replace (entries : List (CacheKey × AnalysisResult))
    (k : CacheKey) (v : AnalysisResult) (w : CacheKey × AnalysisResult)
    (h : (entries.find? fun e => e.1 == k) = some w) :
    ((entries.map fun e => if e.1 = k then (k, v) else e).find?
      fun e => e.1 == k) = some (k, v) := by
  induction entries with
  | nil => simp at h
  | cons e es ih =>
    by_cases hk : e.1 = k
    · simp [List.find?_cons, hk]
    · rw [List.find?_cons] at h
      have hpe : (e.1 == k) = false := by simpa using hk
      rw [hpe] at h
      simp only [List.map_cons, if_neg hk, List.find?_cons, hpe]
      exact ih h

/-- Finding under a key is unaffected by replacement at a different key. -/
theorem find?_map_replace_other (entries : List (CacheKey × AnalysisResult))
    (k1 k2 : CacheKey) (v : AnalysisResult) (hne : k1 ≠ k2) :
    ((entries.map fun e => if e.1 = k1 then (k1, v) else e).find?
      fun e => e.1 == k2) = (entries.find? fun e => e.1 == k2) := by
  induction entries with
  | nil => simp
  | cons e es ih =>
    by_cases hk : e.1 = k1
    · have h2 : ((k1, v).1 == k2) = false := by simpa using hne
      have h3 : (e.1 == k2) = false := by
        simp only [beq_eq_false_iff_ne]
        rw [hk]
        exact hne
      simp only [List.map_cons, if_pos hk, List.find?_cons, h2, h3]
      exact ih
    · simp only [List.map_cons, if_neg hk, List.find?_cons]
      cases hpe : (e.1 == k2) with
      | true => rfl
      | false => exact ih

/-- Finding under a key is unaffected by appending an entry with a
different key. -/
theorem find?_append_other (entries : List (CacheKey × AnalysisResult))
    (k1 k2 : CacheKey) (v : AnalysisResult) (hne : k1 ≠ k2) :
    ((entries ++ [(k1, v)]).find? fun e => e.1 == k2) =
      (entries.find? fun e => e.1 == k2) := by
  induction entries with
  | nil => simp [hne]
  | cons e es ih =>
    simp only [List.cons_append, List.find?_cons]
    cases hpe : (e.1 == k2) with
    | true => rfl
    | false => exact ih

/-- A `get` after a `put` under the same key sees the written value. -/
theorem CacheStore.get_put_self (s : CacheStore) (k : CacheKey)
    (v : AnalysisResult) : (s.put k v).get k = some v := by
  rcases hget : s.get k with _ | w
  · have hfind : (s.entries.find? fun e => e.1 == k) = none := by
      rcases h : s.entries.find? fun e => e.1 == k with _ | e
      · exact h
      · rw [CacheStore.get, h] at hget
        simp at hget
    simp only [CacheStore.put, hget]
    rw [CacheStore.get]
    simp only [find?_append_fresh _ _ _ hfind, Option.map_some']
  · rcases hfind : s.entries.find? fun e => e.1 == k with _ | e
    · rw [CacheStore.get, hfind] at hget
      simp at hget
    · simp only [CacheStore.put, hget]
      by_cases hw : w = v
      · subst hw
        rw [if_pos rfl]
        exact hget
      · rw [if_neg hw, CacheStore.get]
        simp only [find?_map_replace _ _ _ _ hfind, Option.map_some']

/-- A `put` under one key does not affect a `get` under any other key. -/
theorem CacheStore.get_put_other (s : CacheStore) (k1 k2 : CacheKey)
    (v : AnalysisResult) (hne : k1 ≠ k2) :
    (s.put k1 v).get k2 = s.get k2 := by
  rcases hget : s.get k1 with _ | w
  · simp only [CacheStore.put, hget]
    rw [CacheStore.get, CacheStore.get]
    rw [find?_append_other _ _ _ _ hne]
  · simp only [CacheStore.put, hget]
    by_cases hw : w = v
    · rw [if_pos hw]
    · rw [if_neg hw, CacheStore.get, CacheStore.get]
      rw [find?_map_replace_other _ _ _ _ hne]

/-- Claim C2: after `put(k, v)`, `get(k)` returns `v`; repeating the same
`put` leaves the store exactly as after one `put` (and a `put` whose
content already sits under the key is a complete no-op); a fresh write logs
nothing, while a `put` with different content for an existing key is
applied together with an explicit warning appended to the log. -/
theorem cache_put_idempotent (s : CacheStore) (k : CacheKey)
    (v : AnalysisResult) :
    (s.put k v).get k = some v ∧
    (s.put k v).put k v = s.put k v ∧
    (s.get k = some v → s.put k v = s) ∧
    (s.get k = none → (s.put k v).log = s.log) ∧
    (∀ w, s.get k = some w → w ≠ v →
      (s.put k v).log = s.log ++ [conflictMessage]) := by
  refine ⟨CacheStore.get_put_self s k v, ?_, ?_, ?_, ?_⟩
  · have h := CacheStore.get_put_self s k v
    conv_lhs => rw [CacheStore.put]
    simp [h]
  · intro h
    simp [CacheStore.put, h]
  · intro h
    simp only [CacheStore.put, h]
  · intro w hw hne
    simp only [CacheStore.put, hw, if_neg hne]

/-- Concrete analysis result stored under commit `c1` in the C2 witness. -/
def cexResultOld : AnalysisResult :=
  { resolvedCommit := "c1", depGraphNodes := [], depGraphEdges := [],
    astMap := [] }

/-- Concrete analysis result written over it in the C2 witness. -/
def cexResultNew : AnalysisResult :=
  { resolvedCommit := "c2", depGraphNodes := [], depGraphEdges := [],
    astMap := [] }

/-- Claim C2 witness: the contract applied at a one-entry store, including
the logged-conflict case. -/
theorem cache_put_idempotent_witness :
    ((CacheStore.mk [(⟨"r", "b", "c1"⟩, cexResultOld)] []).put
        ⟨"r", "b", "c1"⟩ cexResultNew).log = [conflictMessage] := by
  have h := (cache_put_idempotent
    (CacheStore.mk [(⟨"r", "b", "c1"⟩, cexResultOld)] [])
    ⟨"r", "b", "c1"⟩ cexResultNew).2.2.2.2 cexResultOld (by decide) (by decide)
  simpa using h

/-- Claim C1: when the cache holds results for (repo, branch) only under
commit `c1` and the resolver returns a different commit `c2`, the cache
probe under (repo, branch, c2) is a miss, the orchestrator performs a fresh
analysis (hit flag false, fresh result returned and written under the new
key), and a `put` under one key never changes what a probe under any other
key returns. -/
theorem cache_miss_on_commit_change (s : CacheStore)
    (repo branch c1 c2 : String) (v fresh : AnalysisResult)
    (hcached : s.get ⟨repo, branch, c1⟩ = some v)
    (hne : c2 ≠ c1)
    (honly : ∀ e ∈ s.entries, e.1.repo = repo → e.1.branch = branch →
      e.1.commit = c1) :
    s.get ⟨repo, branch, c2⟩ = none ∧
    analyzeTask fresh s repo branch c2 =
      (fresh, s.put ⟨repo, branch, c2⟩ fresh, false) ∧
    (∀ (k1 k2 : CacheKey) (w : AnalysisResult), k1 ≠ k2 →
      (s.put k1 w).get k2 = s.get k2) := by
  have hmiss : s.get ⟨repo, branch, c2⟩ = none := by
    rw [CacheStore.get, Option.map_eq_none', List.find?_eq_none]
    intro e he
    simp only [beq_iff_eq]
    intro heq
    have hcommit := honly e he (by rw [heq]) (by rw [heq])
    rw [heq] at hcommit
    exact hne hcommit
  refine ⟨hmiss, ?_, ?_⟩
  · simp only [analyzeTask, hmiss]
  · intro k1 k2 w hk
    exact CacheStore.get_put_other s k1 k2 w hk

/-- Concrete one-entry store used by the C1 witness. -/
def cexStoreC1 : CacheStore :=
  CacheStore.mk [(⟨"r", "b", "c1"⟩, cexResultOld)] []

/-- Claim C1 witness: a new commit on the same branch misses the cache and
triggers a fresh analysis at a concrete one-entry store. -/
theorem cache_miss_on_commit_change_witness :
    cexStoreC1.get ⟨"r", "b", "c2"⟩ = none ∧
    (analyzeTask cexResultNew cexStoreC1 "r" "b" "c2").1 = cexResultNew ∧
    (analyzeTask cexResultNew cexStoreC1 "r" "b" "c2").2.2 = false := by
  have h := cache_miss_on_commit_change cexStoreC1 "r" "b" "c1" "c2"
    cexResultOld cexResultNew (by decide) (by decide) (by decide)
  exact ⟨h.1, by rw [h.2.1], by rw [h.2.1]⟩

/- ===================================================================
   Task status polling (claim C4)
   Source: components/LoadingScreen.tsx (`pollStatus`, lines 14-41).
   =================================================================== -/

/-- Body of the status response read by `pollStatus`: `data.status`,
`data.progress`, `data.result?.repo_analysis_id`, `data.error`. -/
structure StatusResponse where
  status : String
  progress : Option String
  resultId : Option Nat
  error : Option String
deriving DecidableEq

/-- Client-side state touched by `pollStatus`: the rendered progress
message, whether `clearInterval` has stopped the polling loop, and the
analysis id navigated to, if any. -/
structure PollState where
  message : String
  pollingStopped : Bool
  navigatedTo : Option Nat
deriving DecidableEq

/-- JavaScript `v || dflt` for an optional string: the fallback is used
when the value is absent or empty (falsy). -/
def jsOrString (v : Option String) (dflt : String) : String :=
  match v with
  | some s => if s = "" then dflt else s
  | none => dflt

/-- Source `pollStatus` (LoadingScreen.tsx lines 14-41) as a state
transition on one status response. -/
def pollStatusStep (data : StatusResponse) (st : PollState) : PollState :=
  if data.status = "in-progress" then
    { st with message := jsOrString data.progress "Processing..." }
  else if data.status = "pending" then
    { st with message := "Queued..." }
  else if data.status = "completed" then
    match data.resultId with
    | some rid =>
      if rid ≠ 0 then
        { st with pollingStopped := true, navigatedTo := some rid }
      else
        { st with pollingStopped := true
                  message :=
            "Analysis completed but could not retrieve ID. Please check history." }
    | none =>
      { st with pollingStopped := true
                message :=
          "Analysis completed but could not retrieve ID. Please check history." }
  else if data.status = "failed" then
    { st with pollingStopped := true
              message := "Analysis failed: " ++ jsOrString data.error "Unknown error" }
  else st

/-- Modelled from the spec: the task orchestrator state machine of section
4.6, `pending → in_progress → (completed | failed)`.  The in-progress state
is published under the hyphenated name the status consumer recognizes. -/
inductive TaskState where
  | pending : TaskState
  | inProgress : TaskState
  | completed : TaskState
  | failed : TaskState
deriving DecidableEq

/-- The wire name under which each task state is published. -/
def statusName : TaskState → String
  | .pending => "pending"
  | .inProgress => "in-progress"
  | .completed => "completed"
  | .failed => "failed"

/-- Modelled from the spec: the allowed state transitions of section 4.6. -/
def canStep : TaskState → TaskState → Bool
  | .pending, .inProgress => true
  | .inProgress, .completed => true
  | .inProgress, .failed => true
  | _, _ => false

/-- The four status strings the polling client recognizes. -/
def recognizedStatuses : List String :=
  ["in-progress", "pending", "completed", "failed"]

/-- Claim C4 counterexample: the claim says the in-progress state is
published under the name `in_progress`, but the status consumer
`pollStatus` recognizes only `in-progress` — the underscored name falls
into no branch and leaves the client state untouched, while the hyphenated
name updates the progress message. -/
theorem pollStatus_underscore_counterexample :
    pollStatusStep ⟨"in_progress", some "Parsing files", none, none⟩
        ⟨"", false, none⟩ = ⟨"", false, none⟩ ∧
    pollStatusStep ⟨"in-progress", some "Parsing files", none, none⟩
        ⟨"", false, none⟩ = ⟨"Parsing files", false, none⟩ := by
  decide

/-- Claim C4 (amended): every published task status is one of `pending`,
`in-progress` (hyphenated), `completed`, `failed`; transitions follow
`pending → in-progress → (completed | failed)` with both outcomes
terminal; the polling client leaves its state unchanged on any
unrecognized status and handles exactly the four published names, the
in-progress one by displaying the reported progress. -/
theorem task_status_lifecycle :
    (∀ st : TaskState, statusName st ∈ recognizedStatuses) ∧
    (∀ a b : TaskState, canStep a b = true →
      (a = TaskState.pending ∧ b = TaskState.inProgress) ∨
      (a = TaskState.inProgress ∧
        (b = TaskState.completed ∨ b = TaskState.failed))) ∧
    (∀ b : TaskState, canStep TaskState.completed b = false ∧
      canStep TaskState.failed b = false) ∧
    (∀ (data : StatusResponse) (st : PollState),
      data.status ∉ recognizedStatuses → pollStatusStep data st = st) ∧
    (∀ (st : PollState) (p : String), p ≠ "" →
      pollStatusStep ⟨"in-progress", some p, none, none⟩ st =
        { st with message := p }) := by
  refine ⟨?_, ?_, ?_, ?_, ?_⟩
  · intro st
    cases st <;> decide
  · intro a b h
    cases a <;> cases b <;> simp_all [canStep]
  · intro b
    cases b <;> decide
  · intro data st h
    simp only [recognizedStatuses, List.mem_cons, List.not_mem_nil, or_false,
      not_or] at h
    obtain ⟨h1, h2, h3, h4⟩ := h
    simp [pollStatusStep, h1, h2, h3, h4]
  · intro st p hp
    simp [pollStatusStep, jsOrString, hp]

/-- Claim C4 witness: the amended lifecycle applied at the concrete
unrecognized status string `cancelled`. -/
theorem task_status_lifecycle_witness :
    pollStatusStep ⟨"cancelled", none, none, none⟩ ⟨"Queued...", false, none⟩ =
      ⟨"Queued...", false, none⟩ :=
  task_status_lifecycle.2.2.2.1 ⟨"cancelled", none, none, none⟩
    ⟨"Queued...", false, none⟩ (by decide)

/- ===================================================================
   Progress channel and its consumer (claim C7)
   Source: components/LoadingScreen.tsx (SSE variant, lines 13-58); the
   channel itself is not part of this source tree.
   =================================================================== -/

/-- One event on the progress stream: a server-sent message carrying a
human-readable string, or the named terminal event `done`. -/
inductive ProgressEvent where
  | message : String → ProgressEvent
  | done : ProgressEvent
deriving DecidableEq

/-- Modelled from the spec: the per-task progress channel of section 2 —
an append-only ordered log of events, terminal once `done` has been
published. -/
structure ProgressChannel where
  log : List ProgressEvent
deriving DecidableEq

/-- Whether the channel has already published its terminal event. -/
def ProgressChannel.closed (c : ProgressChannel) : Bool :=
  c.log.contains ProgressEvent.done

/-- Modelled from the spec: emission appends to the log and is refused
after the terminal event (no progress event is delivered after it). -/
def ProgressChannel.emit (c : ProgressChannel) (e : ProgressEvent) :
    ProgressChannel :=
  if c.closed then c else ⟨c.log ++ [e]⟩

/-- Modelled from the spec: the event trace one task publishes — each
progress step as a human-readable message, then the terminal event, `done`
on success or the error string on failure (section 6, outbound). -/
def taskTrace (steps : List String) (outcome : Option String) :
    List ProgressEvent :=
  (steps.map ProgressEvent.message) ++
    [match outcome with
      | none => ProgressEvent.done
      | some err => ProgressEvent.message err]

/-- Client state of the SSE `LoadingScreen`: the rendered message and
whether `eventSource.close()` has been called. -/
structure ClientState where
  progressMessage : String
  closed : Bool
deriving DecidableEq

/-- Source behaviour of the SSE handlers (LoadingScreen.tsx lines 17-48):
`onmessage` renders the message; the named `done` event closes the stream;
after closing, no further event is processed. -/
def clientStep (st : ClientState) (e : ProgressEvent) : ClientState :=
  if st.closed then st
  else
    match e with
    | .message s => { st with progressMessage := s }
    | .done => { st with closed := true }

/-- The client folded over a sequence of received events. -/
def clientRun (st : ClientState) (events : List ProgressEvent) : ClientState :=
  events.foldl clientStep st

/-- A closed client ignores every further event. -/
theorem clientRun_closed (st : ClientState) (h : st.closed = true)
    (events : List ProgressEvent) : clientRun st events = st := by
  induction events with
  | nil => rfl
  | cons e es ih =>
    rw [clientRun, List.foldl_cons]
    have : clientStep st e = st := by simp [clientStep, h]
    rw [this]
    exact ih

/-- After consuming a `done` event the client is closed. -/
theorem clientRun_done_closed (st : ClientState) (pre : List ProgressEvent) :
    (clientRun st (pre ++ [ProgressEvent.done])).closed = true := by
  rw [clientRun, List.foldl_append]
  set st' := List.foldl clientStep st pre
  rcases h : st'.closed with _ | _
  · simp [clientStep, h]
  · simp [clientStep, h]

/-- Claim C7: the progress channel is an append-only ordered event log
whose terminal event is `done` (or an error string); no event is delivered
after the terminal event, and the consuming client stops reading the
stream once `done` is received — events after `done` never change what it
rendered. -/
theorem progress_channel_contract :
    (∀ (c : ProgressChannel) (e : ProgressEvent),
      (c.emit e).log = c.log ∨ (c.emit e).log = c.log ++ [e]) ∧
    (∀ (c : ProgressChannel) (e : ProgressEvent), c.closed = true →
      c.emit e = c) ∧
    (∀ (steps : List String) (outcome : Option String),
      (taskTrace steps outcome).getLast? =
        some (match outcome with
          | none => ProgressEvent.done
          | some err => ProgressEvent.message err)) ∧
    (∀ (st : ClientState) (pre post : List ProgressEvent),
      clientRun st (pre ++ ProgressEvent.done :: post) =
        clientRun st (pre ++ [ProgressEvent.done])) := by
  refine ⟨?_, ?_, ?_, ?_⟩
  · intro c e
    by_cases h : c.closed
    · exact Or.inl (by simp [ProgressChannel.emit, h])
    · exact Or.inr (by simp [ProgressChannel.emit, h])
  · intro c e h
    simp [ProgressChannel.emit, h]
  · intro steps outcome
    rw [taskTrace.eq_def, List.getLast?_concat]
  · intro st pre post
    have heq : pre ++ ProgressEvent.done :: post =
        (pre ++ [ProgressEvent.done]) ++ post := by simp
    rw [heq, clientRun, List.foldl_append]
    have hclosed := clientRun_done_closed st pre
    rw [clientRun] at hclosed ⊢
    exact clientRun_closed _ hclosed post

/-- Claim C7 witness: emission is refused on a concrete channel that has
already published `done`. -/
theorem progress_channel_contract_witness :
    ProgressChannel.emit ⟨[ProgressEvent.done]⟩
        (ProgressEvent.message "Parsing...") = ⟨[ProgressEvent.done]⟩ :=
  progress_channel_contract.2.1 ⟨[ProgressEvent.done]⟩
    (ProgressEvent.message "Parsing...") (by decide)

/- ===================================================================
   File selection (claim C10)
   Source: components/FileAnalysis/FileSelector.tsx (`handleFileClick`,
   lines 55-110).
   =================================================================== -/

/-- Keys of the IndexedDB store touched by `handleFileClick`.  The string
keys `fileAnalysis-<file>`, `lastUsedFile` and `history_id` are disjoint by
construction, which the constructors reflect. -/
inductive StoreKey where
  | fileAnalysis : String → StoreKey
  | lastUsedFile : StoreKey
  | historyId : StoreKey
deriving DecidableEq

/-- Look an entry up in the IndexedDB model. -/
def lookupStore (st : List (StoreKey × String)) (k : StoreKey) :
    Option String :=
  (st.find? fun e => e.1 == k).map (·.2)

/-- `setItem`: upsert a value under a key, replacing the entry holding the
key or appending a fresh one. -/
def setStore : List (StoreKey × String) → StoreKey → String →
    List (StoreKey × String)
  | [], k, v => [(k, v)]
  | e :: rest, k, v =>
    if e.1 = k then (k, v) :: rest else e :: setStore rest k v

/-- `removeItem`: drop every entry under a key. -/
def removeStore (st : List (StoreKey × String)) (k : StoreKey) :
    List (StoreKey × String) :=
  st.filter fun e => !(e.1 == k)

/-- Component state and externally visible effects of one
`handleFileClick` run: the IndexedDB contents, the network requests
issued, and the React state setters invoked. -/
structure FSState where
  store : List (StoreKey × String)
  requests : List String
  selectedFile : String
  loading : Bool
  isOpen : Bool
  fileSelected : Bool
deriving DecidableEq

/-- Outcome of the network calls `handleFileClick` may make; the backend
is external, so its answers are parameters. -/
structure NetEnv where
  resetOk : Bool
  fileResponse : Option String
deriving DecidableEq

/-- The slice of the fetched repository analysis read by
`handleFileClick`: the AST map (file path to serialized AST). -/
structure AnalysisData where
  ast : List (String × String)
deriving DecidableEq

/-- Common tail of `handleFileClick` (lines 105-109): record the last used
file, select it, stop loading, close the dropdown, invoke the callback. -/
def finishFileClick (s : FSState) (file : String) : FSState :=
  { s with store := setStore s.store StoreKey.lastUsedFile file
           selectedFile := file
           loading := false
           isOpen := false
           fileSelected := true }

/-- Source `handleFileClick` (FileSelector.tsx lines 55-110).  On a cache
miss with an analysis present it resets the chat history (when a
`history_id` exists), fetches the file analysis, and caches the response;
early returns on a missing AST or failed request skip the common tail. -/
def handleFileClick (net : NetEnv) (analysis : Option AnalysisData)
    (file : String) (s0 : FSState) : FSState :=
  let cached := lookupStore s0.store (StoreKey.fileAnalysis file)
  let s1 := { s0 with loading := true }
  match cached, analysis with
  | none, some a =>
    let s2 :=
      match lookupStore s1.store StoreKey.historyId with
      | some _ =>
        let sr := { s1 with requests := s1.requests ++ ["POST /api/ask reset"] }
        if net.resetOk then
          { sr with store := removeStore sr.store StoreKey.historyId }
        else sr
      | none => s1
    match (a.ast.find? fun e => e.1 == file).map (·.2) with
    | none => { s2 with loading := false }
    | some _ =>
      let s3 := { s2 with requests := s2.requests ++ ["POST /api/file"] }
      match net.fileResponse with
      | none => { s3 with loading := false }
      | some data =>
        let s4 := { s3 with
          store := setStore s3.store (StoreKey.fileAnalysis file) data }
        finishFileClick s4 file
  | _, _ => finishFileClick s1 file

/-- Finding one key is unaffected by an upsert under a different key. -/
theorem find?_setStore_other (st : List (StoreKey × String))
    (k k' : StoreKey) (v : String) (hne : k' ≠ k) :
    ((setStore st k' v).find? fun e => e.1 == k) =
      st.find? fun e => e.1 == k := by
  induction st with
  | nil => simp [setStore, hne]
  | cons e rest ih =>
    rw [setStore]
    by_cases he : e.1 = k'
    · rw [if_pos he]
      rw [List.find?_cons, List.find?_cons]
      have h1 : ((k', v).1 == k) = false := by simpa using hne
      have h2 : (e.1 == k) = false := by rw [he]; simpa using hne
      rw [h1, h2]
    · rw [if_neg he, List.find?_cons, List.find?_cons]
      cases hk : (e.1 == k) with
      | true => rfl
      | false => exact ih

/-- Looking up one key is unaffected by an upsert under a different key. -/
theorem lookupStore_setStore_other (st : List (StoreKey × String))
    (k k' : StoreKey) (v : String) (hne : k' ≠ k) :
    lookupStore (setStore st k' v) k = lookupStore st k := by
  rw [lookupStore, lookupStore, find?_setStore_other st k k' v hne]

/-- Claim C10: when a cached `FileAnalysis` already exists under the key
`fileAnalysis-<file>`, `handleFileClick` issues no network request at all
(in particular no file-analysis request and no chat-history reset), leaves
the cached entry unchanged, and the only stored state it updates is the
`lastUsedFile` record; the clicked file becomes the selected one. -/
theorem handleFileClick_cached_frame (net : NetEnv)
    (analysis : Option AnalysisData) (file : String) (s0 : FSState)
    (v : String)
    (hcached : lookupStore s0.store (StoreKey.fileAnalysis file) = some v) :
    handleFileClick net analysis file s0 =
      { s0 with store := setStore s0.store StoreKey.lastUsedFile file
                selectedFile := file
                loading := false
                isOpen := false
                fileSelected := true } ∧
    (handleFileClick net analysis file s0).requests = s0.requests ∧
    lookupStore (handleFileClick net analysis file s0).store
      (StoreKey.fileAnalysis file) = some v := by
  have hmain : handleFileClick net analysis file s0 =
      { s0 with store := setStore s0.store StoreKey.lastUsedFile file
                selectedFile := file
                loading := false
                isOpen := false
                fileSelected := true } := by
    cases analysis with
    | none => simp [handleFileClick, hcached, finishFileClick]
    | some a => simp [handleFileClick, hcached, finishFileClick]
  refine ⟨hmain, by rw [hmain], ?_⟩
  rw [hmain]
  exact (lookupStore_setStore_other s0.store (StoreKey.fileAnalysis file)
    StoreKey.lastUsedFile file (by intro h; cases h)).trans hcached

/-- Claim C10 witness: a click on a file whose analysis is already cached,
at a concrete store. -/
theorem handleFileClick_cached_frame_witness :
    handleFileClick ⟨true, none⟩ none "a.py"
        ⟨[(StoreKey.fileAnalysis "a.py", "data")], [], "", false, true, false⟩ =
      ⟨[(StoreKey.fileAnalysis "a.py", "data"),
        (StoreKey.lastUsedFile, "a.py")], [], "a.py", false, false, true⟩ := by
  have h := (handleFileClick_cached_frame ⟨true, none⟩ none "a.py"
    ⟨[(StoreKey.fileAnalysis "a.py", "data")], [], "", false, true, false⟩
    "data" (by decide)).1
  rw [h]
  decide
